import Mathlib

/-!
Verification of the position-ledger / take-profit / stop-loss strategy in
`profit-loss strateg/test01.py`.

The ledger (`pos` / `position` data frame) is embedded as a list of
transactions in insertion order; prices, volumes and positions are
embedded as rationals.  A price snapshot (`state : pd.Series`) is a list
of index labels together with a total price lookup.

The embedding has two layers.  The strict layer —
`applyMaxColumnTime`, `take_profit_strict`, `stop_loss_strict`,
`take_action_strict` — follows the source's actual pandas semantics:
`group_by.apply(max, column='time')` forwards the unknown keyword
`column` to builtin `max` and raises `TypeError` on every non-empty
groupby, so on any non-empty ledger the rule functions raise before
computing a decision, and `DataFrame.append` returns a new frame whose
discard leaves the `iloc[-1, k]` writes overwriting the last existing
row, so the apply routine never appends.  The intent layer —
`take_profit`, `stop_loss`, `take_action`, `tpDecision`, `slDecision`,
`latestRow` — embeds the data flow the functions' docstrings and the
repository documentation describe (per-symbol mean price, per-symbol
chronologically-last row, threshold decisions, appended closing rows);
the two layers coincide exactly on the empty ledger, the only input on
which the source returns at all, and claims about non-empty ledgers are
settled against the strict layer.
-/

/-- One row of the ledger.  Columns of the source data frame, in order:
`symbol, time, transaction price, transaction direction, volume, latest position`
(the `iloc` column indices 0..5 used by `take_action` refer to this order). -/
structure Transaction where
  symbol : String
  time : Nat
  transaction_price : ℚ
  transaction_direction : ℚ
  volume : ℚ
  latest_position : ℚ
deriving DecidableEq

/-- A price snapshot (`state : pd.Series`): its index labels and the
price lookup `state[symbol]`. -/
structure Snapshot where
  index : List String
  price : String → ℚ

/-- `np.sign` on rationals. -/
def sign (x : ℚ) : ℚ := if 0 < x then 1 else if x < 0 then -1 else 0

/-- Insert a string into a (sorted) list, keeping order. -/
def insertSorted (s : String) : List String → List String
  | [] => [s]
  | a :: l => if s ≤ a then s :: a :: l else a :: insertSorted s l

/-- Sort a list of strings (insertion sort). -/
def sortStrings (l : List String) : List String := l.foldr insertSorted []

/-- The group keys of `pos.groupby('symbol')`: the distinct symbols of the
ledger, in sorted order (pandas sorts group keys). -/
def symbolsOf (pos : List Transaction) : List String :=
  sortStrings (pos.map (fun r => r.symbol)).dedup

/-- `group_by.agg({'transaction price': 'mean'})` at symbol `s`: the mean
transaction price over the rows of that symbol. -/
def avgPrice (pos : List Transaction) (s : String) : ℚ :=
  let ps := (pos.filter (fun r => r.symbol = s)).map (fun r => r.transaction_price)
  ps.sum / ps.length

/-- Keep the row with the larger time; on ties the later row wins. -/
def maxTimeStep (best : Option Transaction) (r : Transaction) : Option Transaction :=
  match best with
  | none => some r
  | some b => if b.time ≤ r.time then some r else some b

/-- The chronologically last row of symbol `s` (ties broken by ledger
order, last inserted wins): the selection the spec documents for the
aggregation step.  The source's `group_by.apply(max, column='time')` never
performs it — it raises `TypeError` (see `applyMaxColumnTime`) — so this
definition records the documented intent, not a computation the program
reaches on a non-empty ledger. -/
def latestRow (pos : List Transaction) (s : String) : Option Transaction :=
  (pos.filter (fun r => r.symbol = s)).foldl maxTimeStep none

/-- The six ledger columns, as created by `strategy` and `back_testing`
when they are handed no position frame. -/
def ledgerColumns : List String :=
  ["symbol", "time", "transaction price", "transaction direction", "volume",
   "latest position"]

/-- A position data frame: its columns and its rows. -/
structure PosFrame where
  columns : List String
  rows : List Transaction
deriving DecidableEq

/-- `strategy(pos)`: replaces a missing (`None`) position table by an empty
frame with the six ledger columns, and otherwise returns `pos` itself. -/
def strategy : Option PosFrame → PosFrame
  | some pos => pos
  | none => { columns := ledgerColumns, rows := [] }

/-- A decision series (`tp` / `sl : pd.Series`): an ordered association of
labels to values, where a value `none` is pandas `NaN` (the fill value of
`pd.Series(index=state.index)`). -/
abbrev DecSeries : Type := List (String × Option ℚ)

/-- `series[s] = v`: overwrite the entries labelled `s`, or append a new
entry if the label is absent. -/
def setItem (m : DecSeries) (s : String) (v : ℚ) : DecSeries :=
  if m.any (fun p => decide (p.1 = s)) then
    m.map (fun p => if p.1 = s then (p.1, some v) else p)
  else m ++ [(s, some v)]

/-- `series[s]`: the stored value at the first entry labelled `s`
(`none` both for a missing label and for a stored `NaN`). -/
def getItem (m : DecSeries) (s : String) : Option ℚ :=
  (m.find? (fun p => decide (p.1 = s))).bind (fun p => p.2)

/-- `pd.Series(index=state.index)`: every label of the snapshot, value `NaN`. -/
def initSeries (state : Snapshot) : DecSeries :=
  state.index.map (fun s => (s, (none : Option ℚ)))

/-- The value the `take_profit` loop would store for symbol `s` under the
documented intent: `direction = np.sign(latest['latest position'])` for the
group of `s`, `r = direction * (price - avg) / avg` with the group's scalar
mean, then `direction * -1` if `r > 0.3`, `direction * -0.5` if `r > 0.1`,
else `0`.  The source never evaluates these conditions — line 29 raises
first (see `take_profit_strict`), and the written comparison would use the
whole average table, a `ValueError` under `if`.  Intent layer only: the
claims use `take_profit` below solely at the empty ledger, where this
function is never invoked. -/
def tpDecision (pos : List Transaction) (state : Snapshot) (s : String) : ℚ :=
  let direction := sign ((latestRow pos s).elim 0 (fun t => t.latest_position))
  let avg := avgPrice pos s
  if direction * (state.price s - avg) / avg > 0.3 then direction * (-1)
  else if direction * (state.price s - avg) / avg > 0.1 then direction * (-0.5)
  else 0

/-- The value the `stop_loss` loop would store for symbol `s` under the
documented intent: as in `tpDecision` (with the same caveats — the source
raises before evaluating these conditions) but with the reversed
comparisons `r < -0.3` and `r < -0.1`. -/
def slDecision (pos : List Transaction) (state : Snapshot) (s : String) : ℚ :=
  let direction := sign ((latestRow pos s).elim 0 (fun t => t.latest_position))
  let avg := avgPrice pos s
  if direction * (state.price s - avg) / avg < -0.3 then direction * (-1)
  else if direction * (state.price s - avg) / avg < -0.1 then direction * (-0.5)
  else 0

/-- `take_profit(pos, state)` under the documented intent: builds
`tp = pd.Series(index=state.index)` and, iterating over the per-symbol
aggregate table, stores the threshold decision for each ledger symbol.  The
first component is the ledger as the function leaves it — the body only
reads `pos`.  The source only ever returns on the empty ledger, where this
model and `take_profit_strict` (the actual, raising semantics) coincide:
the fold below is then a no-op and the untouched all-`NaN` series comes
back. -/
def take_profit (pos : List Transaction) (state : Snapshot) :
    List Transaction × DecSeries :=
  (pos,
   (symbolsOf pos).foldl (fun tp s => setItem tp s (tpDecision pos state s))
     (initSeries state))

/-- `stop_loss(pos, state)` under the documented intent: as `take_profit`,
with the mirrored thresholds (same caveats; see `stop_loss_strict`). -/
def stop_loss (pos : List Transaction) (state : Snapshot) :
    List Transaction × DecSeries :=
  (pos,
   (symbolsOf pos).foldl (fun sl s => setItem sl s (slDecision pos state s))
     (initSeries state))

/-- The closing row built for a symbol whose decision `d` fired: a copy of the
symbol's latest row `t` whose columns 2..5 are then overwritten in order —
`transaction_price := state[s]`,
`transaction_direction := -1 * np.sign(latest_position)`,
`volume := latest_position * abs(d)` (column 5 still holds the previous
position when columns 3 and 4 are written), and finally
`latest_position := latest_position * (1 + d)`. -/
def closeRow (t : Transaction) (price d : ℚ) : Transaction :=
  { symbol := t.symbol
    time := t.time
    transaction_price := price
    transaction_direction := -1 * sign t.latest_position
    volume := t.latest_position * |d|
    latest_position := t.latest_position * (1 + d) }

/-- `take_action(profit, loss, position, state)` under the documented
intent: iterate over the per-symbol latest rows (`current_pos`, computed
once before the loop) and, for each symbol whose take-profit and/or
stop-loss decision is non-zero, append the corresponding closing row; when
both decisions fire, both rows are appended, each built from the pre-call
latest row of the symbol.  The source never performs these appends — it
raises at the aggregation, and past that `DataFrame.append`'s result is
discarded (see `take_action_strict`); on the empty ledger, the only input
where the claims use this model, both models leave the ledger unchanged. -/
def take_action (profit loss : String → ℚ) (position : List Transaction)
    (state : Snapshot) : List Transaction :=
  position ++ (symbolsOf position).flatMap (fun s =>
    match latestRow position s with
    | none => []
    | some t =>
        (if profit s ≠ 0 then [closeRow t (state.price s) (profit s)] else []) ++
        (if loss s ≠ 0 then [closeRow t (state.price s) (loss s)] else []))

/-- Overwrite the last row of the frame with its closing-row update
(the effect of the `position.iloc[-1, k] = …` assignments when no row was
actually appended). -/
def overwriteLast (l : List Transaction) (price d : ℚ) : List Transaction :=
  match l.getLast? with
  | none => []
  | some t => l.dropLast ++ [closeRow t price d]

/-- `take_action` under the letter of the pandas API: `DataFrame.append`
returns a new frame, which the source discards, so each
`position.iloc[-1, k] = …` assignment overwrites the last row already in the
frame and no row is ever added. -/
def take_action_strict (profit loss : String → ℚ) (position : List Transaction)
    (state : Snapshot) : List Transaction :=
  (symbolsOf position).foldl (fun acc s =>
    match latestRow position s with
    | none => acc
    | some _ =>
        let acc1 := if profit s ≠ 0 then overwriteLast acc (state.price s) (profit s)
          else acc
        if loss s ≠ 0 then overwriteLast acc1 (state.price s) (loss s) else acc1)
    position

/-- The summed profit of a ledger: `Σ −(price × direction × volume)` over its rows. -/
def ledgerProfit (pos : List Transaction) : ℚ :=
  (pos.map (fun r => -(r.transaction_price * r.transaction_direction * r.volume))).sum

/-- `back_testing`: the stubbed data source `data = pd.DataFrame()` is empty,
so the tick loop never runs; the function then accumulates
`market_value += -1 * np.prod(positions.iloc[i, 2:5])` over the rows
(columns 2..4: price, direction, volume) on top of `initial_money` and
returns `market_value - initial_money`. -/
def back_testing (initial_money : ℚ) (positions : Option (List Transaction)) : ℚ :=
  let pos := positions.getD []
  let data : List Snapshot := []
  let posN := data.foldl (fun p _ => p) pos
  let market_value := posN.foldl
    (fun m r => m + -1 * (r.transaction_price * r.transaction_direction * r.volume))
    initial_money
  market_value - initial_money

/-- `Σ direction × volume` over the rows of symbol `s`, in ledger order. -/
def signedSum (pos : List Transaction) (s : String) : ℚ :=
  ((pos.filter (fun r => r.symbol = s)).map
    (fun r => r.transaction_direction * r.volume)).sum

/-- Check that each row's `latest_position` is the running sum of signed
`direction × volume` for its symbol, starting from the positions in `acc`. -/
def runningOK : List Transaction → (String → ℚ) → Bool
  | [], _ => true
  | r :: rest, acc =>
      let p := acc r.symbol + r.transaction_direction * r.volume
      decide (r.latest_position = p) &&
        runningOK rest (fun s => if s = r.symbol then p else acc s)

/-- Rows are in chronological order (insertion order = time order). -/
def timeOrdered (pos : List Transaction) : Prop :=
  List.Chain' (fun a b => a.time ≤ b.time) pos

/-- The data-model invariant of the ledger (spec §3): chronological insertion
order, and per symbol `latest_position` is the cumulative sum of signed
`direction × volume`. -/
def ledgerWF (pos : List Transaction) : Prop :=
  timeOrdered pos ∧ runningOK pos (fun _ => 0) = true

/-- Whether a decision series holds a non-zero numeric decision at `s`. -/
def firesNonzero (m : DecSeries) (s : String) : Bool :=
  match getItem m s with
  | some v => decide (v ≠ 0)
  | none => false

/-- The pandas exceptions relevant to the rule and apply functions. -/
inductive PandasError where
  | typeError
  | keyError
  | valueError
deriving DecidableEq

/-- `group_by.apply(max, column='time')` as executed: `apply` forwards
`column='time'` to builtin `max`, which accepts no such keyword, so the call
raises `TypeError` as soon as the function is applied to the first group —
that is, on every non-empty ledger.  An empty groupby never calls the
function and yields an empty frame.  (Even with the stray keyword removed,
builtin `max` over a data frame iterates column labels and would return the
largest column name, not the max-time row.) -/
def applyMaxColumnTime (pos : List Transaction) :
    Except PandasError (List Transaction) :=
  if pos = [] then Except.ok [] else Except.error PandasError.typeError

/-- `take_profit` as the source actually executes: `groupby` and the mean
aggregation succeed, then `latest = group_by.apply(max, column='time')`
raises `TypeError` on every non-empty ledger; only the empty-ledger call
continues, and its loop over `range(len(average_transaction_price))` has
zero iterations, so the untouched all-`NaN` series is returned.  The loop's
own error sites — `average_transaction_price['symbol'][i]` (`KeyError`, the
aggregate has no such column) and the whole-frame threshold comparison
under `if` (`ValueError`) — sit unreachable behind the `TypeError`.  The
first component is the ledger object when the function exits, normally or
with the exception: the body never writes to `pos`. -/
def take_profit_strict (pos : List Transaction) (state : Snapshot) :
    List Transaction × Except PandasError DecSeries :=
  (pos,
   match applyMaxColumnTime pos with
   | Except.error e => Except.error e
   | Except.ok _ => Except.ok (initSeries state))

/-- `stop_loss` as the source actually executes: identical control flow to
`take_profit_strict` — lines 56, 61 and 64 mirror lines 29, 34 and 37. -/
def stop_loss_strict (pos : List Transaction) (state : Snapshot) :
    List Transaction × Except PandasError DecSeries :=
  (pos,
   match applyMaxColumnTime pos with
   | Except.error e => Except.error e
   | Except.ok _ => Except.ok (initSeries state))

/-- Whether a rule call returned a series holding a non-zero numeric decision
at `s` (a raising call fires nothing). -/
def firesNonzeroStrict (res : List Transaction × Except PandasError DecSeries)
    (s : String) : Bool :=
  match res.2 with
  | Except.ok m => firesNonzero m s
  | Except.error _ => false

theorem find?_key_map (m : DecSeries) (a s : String) (v : ℚ) :
    List.find? (fun p => decide (p.1 = s))
        (m.map (fun p => if p.1 = a then (p.1, some v) else p)) =
      Option.map (fun p => if p.1 = a then (p.1, some v) else p)
        (List.find? (fun p => decide (p.1 = s)) m) := by
  rw [List.find?_map]
  have hp : ((fun p : String × Option ℚ => decide (p.1 = s)) ∘
      (fun p => if p.1 = a then (p.1, some v) else p)) =
      (fun p : String × Option ℚ => decide (p.1 = s)) := by
    funext p
    by_cases h : p.1 = a <;> simp [Function.comp, h]
  rw [hp]

theorem getItem_setItem_self (m : DecSeries) (s : String) (v : ℚ) :
    getItem (setItem m s v) s = some v := by
  unfold setItem getItem
  by_cases hany : m.any (fun p => decide (p.1 = s)) = true
  · rw [if_pos hany, find?_key_map]
    rcases hfind : List.find? (fun p => decide (p.1 = s)) m with _ | p
    · rcases List.any_eq_true.mp hany with ⟨x, hx, hpx⟩
      exact absurd hpx (List.find?_eq_none.mp hfind x hx)
    · have hp := List.find?_some hfind
      simp only [decide_eq_true_eq] at hp
      rw [hfind]
      simp [hp]
  · rw [if_neg hany, List.find?_append]
    have hnone : List.find? (fun p => decide (p.1 = s)) m = none := by
      rw [List.find?_eq_none]
      intro x hx hpx
      exact hany (List.any_eq_true.mpr ⟨x, hx, hpx⟩)
    rw [hnone]
    simp [List.find?]

theorem getItem_setItem_ne (m : DecSeries) (a s : String) (v : ℚ) (h : a ≠ s) :
    getItem (setItem m a v) s = getItem m s := by
  unfold setItem getItem
  by_cases hany : m.any (fun p => decide (p.1 = a)) = true
  · rw [if_pos hany, find?_key_map]
    rcases hfind : List.find? (fun p => decide (p.1 = s)) m with _ | p
    · rw [hfind]
      simp
    · have hp := List.find?_some hfind
      simp only [decide_eq_true_eq] at hp
      have hpa : ¬ p.1 = a := by rw [hp]; exact fun hh => h hh.symm
      rw [hfind]
      simp [hpa]
  · rw [if_neg hany, List.find?_append]
    have htail : List.find? (fun p : String × Option ℚ => decide (p.1 = s))
        [(a, some v)] = none := by
      simp [List.find?, h]
    rw [htail, Option.or_none]

theorem getItem_fold (f : String → ℚ) (l : List String) (hl : l.Nodup)
    (m : DecSeries) (s : String) :
    getItem (l.foldl (fun m s => setItem m s (f s)) m) s =
      if s ∈ l then some (f s) else getItem m s := by
  induction l generalizing m with
  | nil => simp
  | cons a l ih =>
      rcases List.nodup_cons.mp hl with ⟨hnin, hnd⟩
      simp only [List.foldl_cons]
      by_cases hsa : s = a
      · subst hsa
        rw [ih hnd, if_neg hnin, if_pos (List.mem_cons_self _ _),
          getItem_setItem_self]
      · rw [ih hnd]
        by_cases hsl : s ∈ l
        · rw [if_pos hsl, if_pos (List.mem_cons_of_mem _ hsl)]
        · rw [if_neg hsl, if_neg (by simp [hsa, hsl]),
            getItem_setItem_ne _ _ _ _ (fun hh => hsa hh.symm)]

theorem getItem_initList (l : List String) (s : String) :
    getItem (l.map (fun s => (s, (none : Option ℚ)))) s = none := by
  induction l with
  | nil => rfl
  | cons a l ih =>
      by_cases hd : a = s
      · simp [getItem, List.find?_cons, hd]
      · have hstep : getItem ((a :: l).map (fun s => (s, (none : Option ℚ)))) s =
            getItem (l.map (fun s => (s, (none : Option ℚ)))) s := by
          unfold getItem
          rw [List.map_cons, List.find?_cons]
          simp [hd]
        rw [hstep, ih]

theorem getItem_initSeries (state : Snapshot) (s : String) :
    getItem (initSeries state) s = none :=
  getItem_initList state.index s

theorem insertSorted_perm (s : String) (l : List String) :
    List.Perm (insertSorted s l) (s :: l) := by
  induction l with
  | nil => exact List.Perm.refl _
  | cons a l ih =>
      rw [insertSorted]
      split
      · exact List.Perm.refl _
      · exact List.Perm.trans (List.Perm.cons a ih) (List.Perm.swap s a l)

theorem sortStrings_perm (l : List String) : List.Perm (sortStrings l) l := by
  induction l with
  | nil => exact List.Perm.refl _
  | cons a l ih =>
      have h1 : sortStrings (a :: l) = insertSorted a (sortStrings l) := rfl
      rw [h1]
      exact List.Perm.trans (insertSorted_perm a (sortStrings l)) (List.Perm.cons a ih)

theorem symbolsOf_nodup (pos : List Transaction) : (symbolsOf pos).Nodup :=
  ((sortStrings_perm _).nodup_iff).mpr (List.nodup_dedup _)

theorem mem_symbolsOf (pos : List Transaction) (s : String) :
    s ∈ symbolsOf pos ↔ s ∈ pos.map (fun r => r.symbol) := by
  rw [symbolsOf, (sortStrings_perm _).mem_iff, List.mem_dedup]

/-- The decision `take_profit` returns for label `s`: the threshold value for
a ledger symbol, `NaN` for every other snapshot label. -/
theorem take_profit_getItem (pos : List Transaction) (state : Snapshot) (s : String) :
    getItem (take_profit pos state).2 s =
      if s ∈ symbolsOf pos then some (tpDecision pos state s) else none := by
  have h := getItem_fold (fun s => tpDecision pos state s) (symbolsOf pos)
    (symbolsOf_nodup pos) (initSeries state) s
  rw [getItem_initSeries] at h
  exact h

/-- The decision `stop_loss` returns for label `s`. -/
theorem stop_loss_getItem (pos : List Transaction) (state : Snapshot) (s : String) :
    getItem (stop_loss pos state).2 s =
      if s ∈ symbolsOf pos then some (slDecision pos state s) else none := by
  have h := getItem_fold (fun s => slDecision pos state s) (symbolsOf pos)
    (symbolsOf_nodup pos) (initSeries state) s
  rw [getItem_initSeries] at h
  exact h

theorem latestRow_mem_symbolsOf (pos : List Transaction) (s : String)
    (t : Transaction) (h : latestRow pos s = some t) : s ∈ symbolsOf pos := by
  rw [mem_symbolsOf]
  unfold latestRow at h
  rcases hf : pos.filter (fun r => r.symbol = s) with _ | ⟨r, rest⟩
  · rw [hf] at h; simp at h
  · have hr : r ∈ pos.filter (fun r => r.symbol = s) := by
      rw [hf]; exact List.mem_cons_self _ _
    rcases List.mem_filter.mp hr with ⟨hmem, hsym⟩
    simp only [decide_eq_true_eq] at hsym
    exact hsym ▸ List.mem_map_of_mem _ hmem

theorem back_testing_foldl (m : ℚ) (pos : List Transaction) :
    pos.foldl
      (fun m r => m + -1 * (r.transaction_price * r.transaction_direction * r.volume)) m
      = m + ledgerProfit pos := by
  induction pos generalizing m with
  | nil => simp [ledgerProfit]
  | cons r rest ih =>
      simp only [List.foldl_cons, ih, ledgerProfit, List.map_cons, List.sum_cons]
      ring

theorem firesNonzero_take_profit (pos : List Transaction) (state : Snapshot)
    (s : String) (h : firesNonzero (take_profit pos state).2 s = true) :
    tpDecision pos state s ≠ 0 := by
  unfold firesNonzero at h
  rw [take_profit_getItem] at h
  by_cases hmem : s ∈ symbolsOf pos
  · rw [if_pos hmem] at h
    simpa using h
  · rw [if_neg hmem] at h
    simp at h

theorem firesNonzero_stop_loss (pos : List Transaction) (state : Snapshot)
    (s : String) (h : firesNonzero (stop_loss pos state).2 s = true) :
    slDecision pos state s ≠ 0 := by
  unfold firesNonzero at h
  rw [stop_loss_getItem] at h
  by_cases hmem : s ∈ symbolsOf pos
  · rw [if_pos hmem] at h
    simpa using h
  · rw [if_neg hmem] at h
    simp at h

/-- A take-profit decision and a stop-loss decision for one symbol compare the
same signed return against `> 0.1` and `< -0.1`, so they are never both
non-zero. -/
theorem tp_sl_not_both (pos : List Transaction) (state : Snapshot) (s : String) :
    ¬ (tpDecision pos state s ≠ 0 ∧ slDecision pos state s ≠ 0) := by
  rintro ⟨h1, h2⟩
  simp only [tpDecision] at h1
  simp only [slDecision] at h2
  set d := sign ((latestRow pos s).elim 0 fun t => t.latest_position) with hdd
  set avg := avgPrice pos s with havg
  set r := d * (state.price s - avg) / avg with hrr
  split_ifs at h1 h2 <;>
    first
      | exact h1 rfl
      | exact h2 rfl
      | linarith

theorem foldl_maxTimeStep_some (l : List Transaction) (b : Transaction) :
    ∃ c, List.foldl maxTimeStep (some b) l = some c := by
  induction l generalizing b with
  | nil => exact ⟨b, rfl⟩
  | cons a l ih =>
      rw [List.foldl_cons]
      show ∃ c, List.foldl maxTimeStep (if b.time ≤ a.time then some a else some b) l
        = some c
      by_cases h : b.time ≤ a.time
      · rw [if_pos h]; exact ih a
      · rw [if_neg h]; exact ih b

theorem foldl_maxTimeStep_prop (P : Transaction → Prop) :
    ∀ (l : List Transaction), (∀ r ∈ l, P r) → ∀ (b : Transaction), P b →
      ∀ t, List.foldl maxTimeStep (some b) l = some t → P t := by
  intro l
  induction l with
  | nil =>
      intro _ b hb t ht
      rw [List.foldl_nil] at ht
      cases ht
      exact hb
  | cons a l ih =>
      intro hl b hb t ht
      rw [List.foldl_cons] at ht
      have hred : maxTimeStep (some b) a = if b.time ≤ a.time then some a else some b :=
        rfl
      rw [hred] at ht
      have ha := hl a (List.mem_cons_self _ _)
      have hl2 : ∀ r ∈ l, P r := fun r hr => hl r (List.mem_cons_of_mem _ hr)
      by_cases h : b.time ≤ a.time
      · rw [if_pos h] at ht
        exact ih hl2 a ha t ht
      · rw [if_neg h] at ht
        exact ih hl2 b hb t ht

theorem latestRow_symbol (pos : List Transaction) (s : String) (t : Transaction)
    (h : latestRow pos s = some t) : t.symbol = s := by
  unfold latestRow at h
  rcases hf : pos.filter (fun r => r.symbol = s) with _ | ⟨r, rest⟩
  · rw [hf] at h; simp at h
  · rw [hf, List.foldl_cons] at h
    have hred : maxTimeStep none r = some r := rfl
    rw [hred] at h
    have hall : ∀ x ∈ rest, x.symbol = s := by
      intro x hx
      have hxf : x ∈ pos.filter (fun r => r.symbol = s) := by
        rw [hf]; exact List.mem_cons_of_mem _ hx
      rcases List.mem_filter.mp hxf with ⟨_, hsym⟩
      simpa using hsym
    have hrf : r.symbol = s := by
      have : r ∈ pos.filter (fun r => r.symbol = s) := by
        rw [hf]; exact List.mem_cons_self _ _
      rcases List.mem_filter.mp this with ⟨_, hsym⟩
      simpa using hsym
    exact foldl_maxTimeStep_prop (fun x => x.symbol = s) rest hall r hrf t h

theorem foldl_maxTimeStep_ge (l : List Transaction) :
    ∀ (b : Transaction), (∀ r ∈ l, b.time ≤ r.time) →
      List.Pairwise (fun x y : Transaction => x.time ≤ y.time) l →
      List.foldl maxTimeStep (some b) l = some ((l.getLast?).getD b) := by
  induction l with
  | nil => intro b _ _; rfl
  | cons c l ih =>
      intro b hb hp
      rcases List.pairwise_cons.mp hp with ⟨hc, hl⟩
      rw [List.foldl_cons]
      have hred : maxTimeStep (some b) c = some c := by
        show (if b.time ≤ c.time then some c else some b) = some c
        rw [if_pos (hb c (List.mem_cons_self _ _))]
      rw [hred, ih c hc hl]
      cases l with
      | nil => rfl
      | cons d l2 =>
          rw [List.getLast?_cons_cons]
          rcases hgl : (d :: l2).getLast? with _ | x
          · exact absurd (List.getLast?_eq_none_iff.mp hgl) (by simp)
          · rfl

/-- On a chronologically sorted list, selecting the row with maximal time
(later rows win ties) is the same as taking the last row. -/
theorem foldl_maxTimeStep_sorted (l : List Transaction)
    (hp : List.Pairwise (fun x y : Transaction => x.time ≤ y.time) l) :
    List.foldl maxTimeStep none l = l.getLast? := by
  cases l with
  | nil => rfl
  | cons a l =>
      rcases List.pairwise_cons.mp hp with ⟨ha, hl⟩
      rw [List.foldl_cons]
      have hred : maxTimeStep none a = some a := rfl
      rw [hred, foldl_maxTimeStep_ge l a ha hl]
      cases l with
      | nil => rfl
      | cons d l2 =>
          rw [List.getLast?_cons_cons]
          rcases hgl : (d :: l2).getLast? with _ | x
          · exact absurd (List.getLast?_eq_none_iff.mp hgl) (by simp)
          · rfl

theorem runningOK_getLast :
    ∀ (pos : List Transaction) (acc : String → ℚ), runningOK pos acc = true →
      ∀ (s : String) (t : Transaction),
        (pos.filter (fun r => r.symbol = s)).getLast? = some t →
        t.latest_position = acc s + signedSum pos s := by
  intro pos
  induction pos with
  | nil => intro acc _ s t ht; simp at ht
  | cons r rest ih =>
      intro acc hok s t ht
      have hok2 : r.latest_position = acc r.symbol +
          r.transaction_direction * r.volume ∧
          runningOK rest
            (fun s => if s = r.symbol
              then acc r.symbol + r.transaction_direction * r.volume else acc s)
            = true := by
        simpa [runningOK, Bool.and_eq_true, decide_eq_true_eq] using hok
      by_cases hs : r.symbol = s
      · rw [List.filter_cons, if_pos (by simp [hs])] at ht
        have hcons : signedSum (r :: rest) s =
            r.transaction_direction * r.volume + signedSum rest s := by
          simp [signedSum, List.filter_cons, hs]
        rcases hfl : rest.filter (fun r => r.symbol = s) with _ | ⟨x, xs⟩
        · rw [hfl, List.getLast?_singleton] at ht
          have htr : t = r := by
            have := Option.some.inj ht
            exact this.symm
          have hsum : signedSum rest s = 0 := by
            simp [signedSum, hfl]
          rw [htr, hcons, hsum, hok2.1, hs]
          ring
        · rw [hfl, List.getLast?_cons_cons, ← hfl] at ht
          have hrec := ih _ hok2.2 s t ht
          rw [hrec, hcons]
          rw [if_pos hs.symm, hs]
          ring
      · rw [List.filter_cons, if_neg (by simp [hs])] at ht
        have hrec := ih _ hok2.2 s t ht
        have hcons : signedSum (r :: rest) s = signedSum rest s := by
          simp [signedSum, List.filter_cons, hs]
        rw [hrec, hcons]
        rw [if_neg (fun hh => hs hh.symm)]

theorem take_profit_strict_raises (pos : List Transaction) (state : Snapshot)
    (h : pos ≠ []) :
    (take_profit_strict pos state).2 = Except.error PandasError.typeError := by
  unfold take_profit_strict applyMaxColumnTime
  rw [if_neg h]

theorem stop_loss_strict_raises (pos : List Transaction) (state : Snapshot)
    (h : pos ≠ []) :
    (stop_loss_strict pos state).2 = Except.error PandasError.typeError := by
  unfold stop_loss_strict applyMaxColumnTime
  rw [if_neg h]

/-- No call of the source's `take_profit` ever yields a non-zero decision:
non-empty ledgers raise, and the empty ledger returns the all-`NaN` series. -/
theorem firesNonzeroStrict_take_profit (pos : List Transaction)
    (state : Snapshot) (s : String) :
    firesNonzeroStrict (take_profit_strict pos state) s = false := by
  unfold firesNonzeroStrict take_profit_strict applyMaxColumnTime
  by_cases h : pos = []
  · rw [if_pos h]
    show firesNonzero (initSeries state) s = false
    unfold firesNonzero
    rw [getItem_initSeries]
  · rw [if_neg h]

/-- No call of the source's `stop_loss` ever yields a non-zero decision. -/
theorem firesNonzeroStrict_stop_loss (pos : List Transaction)
    (state : Snapshot) (s : String) :
    firesNonzeroStrict (stop_loss_strict pos state) s = false := by
  unfold firesNonzeroStrict stop_loss_strict applyMaxColumnTime
  by_cases h : pos = []
  · rw [if_pos h]
    show firesNonzero (initSeries state) s = false
    unfold firesNonzero
    rw [getItem_initSeries]
  · rw [if_neg h]

theorem overwriteLast_length (l : List Transaction) (price d : ℚ) :
    (overwriteLast l price d).length = l.length := by
  unfold overwriteLast
  rcases hgl : l.getLast? with _ | t
  · rw [List.getLast?_eq_none_iff.mp hgl]
  · have hne : l ≠ [] := by
      intro hh
      rw [hh] at hgl
      simp at hgl
    show (l.dropLast ++ [closeRow t price d]).length = l.length
    rw [List.length_append, List.length_dropLast]
    have hpos : 0 < l.length := List.length_pos.mpr hne
    simp
    omega

theorem overwriteLast_dropLast (l : List Transaction) (price d : ℚ) :
    (overwriteLast l price d).dropLast = l.dropLast := by
  unfold overwriteLast
  rcases hgl : l.getLast? with _ | t
  · rw [List.getLast?_eq_none_iff.mp hgl]
  · show (l.dropLast ++ [closeRow t price d]).dropLast = l.dropLast
    exact List.dropLast_concat

theorem strict_step_frame (profit loss : String → ℚ) (position : List Transaction)
    (state : Snapshot) (acc : List Transaction) (s : String) :
    ((match latestRow position s with
      | none => acc
      | some _ =>
          let acc1 := if profit s ≠ 0 then overwriteLast acc (state.price s) (profit s)
            else acc
          if loss s ≠ 0 then overwriteLast acc1 (state.price s) (loss s) else acc1) :
      List Transaction).length = acc.length ∧
    ((match latestRow position s with
      | none => acc
      | some _ =>
          let acc1 := if profit s ≠ 0 then overwriteLast acc (state.price s) (profit s)
            else acc
          if loss s ≠ 0 then overwriteLast acc1 (state.price s) (loss s) else acc1) :
      List Transaction).dropLast = acc.dropLast := by
  cases latestRow position s with
  | none => exact ⟨rfl, rfl⟩
  | some t =>
      constructor
      · show (if loss s ≠ 0 then
            overwriteLast
              (if profit s ≠ 0 then overwriteLast acc (state.price s) (profit s) else acc)
              (state.price s) (loss s)
          else if profit s ≠ 0 then overwriteLast acc (state.price s) (profit s)
            else acc).length = acc.length
        split_ifs <;> simp [overwriteLast_length]
      · show (if loss s ≠ 0 then
            overwriteLast
              (if profit s ≠ 0 then overwriteLast acc (state.price s) (profit s) else acc)
              (state.price s) (loss s)
          else if profit s ≠ 0 then overwriteLast acc (state.price s) (profit s)
            else acc).dropLast = acc.dropLast
        split_ifs <;> simp [overwriteLast_dropLast]

/-- The source's `take_action` never changes the number of ledger rows and
leaves every row but the last untouched: each firing decision overwrites the
current last row in place (the appends are discarded). -/
theorem take_action_strict_frame (profit loss : String → ℚ)
    (position : List Transaction) (state : Snapshot) :
    (take_action_strict profit loss position state).length = position.length ∧
    (take_action_strict profit loss position state).dropLast = position.dropLast := by
  unfold take_action_strict
  have aux : ∀ (l : List String) (acc : List Transaction),
      ((l.foldl (fun acc s =>
          match latestRow position s with
          | none => acc
          | some _ =>
              let acc1 := if profit s ≠ 0 then overwriteLast acc (state.price s) (profit s)
                else acc
              if loss s ≠ 0 then overwriteLast acc1 (state.price s) (loss s) else acc1)
        acc).length = acc.length) ∧
      ((l.foldl (fun acc s =>
          match latestRow position s with
          | none => acc
          | some _ =>
              let acc1 := if profit s ≠ 0 then overwriteLast acc (state.price s) (profit s)
                else acc
              if loss s ≠ 0 then overwriteLast acc1 (state.price s) (loss s) else acc1)
        acc).dropLast = acc.dropLast) := by
    intro l
    induction l with
    | nil => intro acc; exact ⟨rfl, rfl⟩
    | cons s l ih =>
        intro acc
        rw [List.foldl_cons]
        rcases strict_step_frame profit loss position state acc s with ⟨h1, h2⟩
        rcases ih _ with ⟨h3, h4⟩
        exact ⟨h3.trans h1, h4.trans h2⟩
  exact aux (symbolsOf position) position

/-- Claim C10: `strategy` is the identity on any given position table, and on
`None` it returns an empty frame with exactly the six columns `symbol`,
`time`, `transaction price`, `transaction direction`, `volume`,
`latest position`. -/
theorem C10_strategy_identity :
    (∀ p : PosFrame, strategy (some p) = p) ∧
    strategy none =
      { columns := ["symbol", "time", "transaction price", "transaction direction",
                    "volume", "latest position"],
        rows := [] } := by
  constructor
  · intro p; rfl
  · rfl

/-- Claim C7: `back_testing` returns the sum of `−(price × direction × volume)`
over all ledger rows (the tick loop is a no-op because the data source is the
empty frame), and in particular returns 0 when the ledger is empty at backtest
end. -/
theorem C7_back_testing_profit :
    (∀ (m : ℚ) (pos : Option (List Transaction)),
      back_testing m pos = ledgerProfit (pos.getD [])) ∧
    (∀ m : ℚ, back_testing m none = 0) ∧
    (∀ m : ℚ, back_testing m (some []) = 0) := by
  refine ⟨?_, ?_, ?_⟩
  · intro m pos
    simp only [back_testing, List.foldl_nil, back_testing_foldl]
    ring
  · intro m
    simp only [back_testing, Option.getD, List.foldl_nil, back_testing_foldl,
      ledgerProfit, List.map_nil, List.sum_nil]
    ring
  · intro m
    simp only [back_testing, Option.getD, List.foldl_nil, back_testing_foldl,
      ledgerProfit, List.map_nil, List.sum_nil]
    ring

/-- Intent-layer lemma: in the documented data flow, a ledger symbol with
positive mean entry price and non-zero latest position gets the decision
`−direction` when the signed return `r = direction × (price − avg) / avg`
exceeds 0.3, `−0.5 × direction` when `r` exceeds 0.1 but not 0.3, and 0
otherwise.  The source itself raises before evaluating these thresholds
(see `take_profit_strict`). -/
theorem intended_take_profit_thresholds (pos : List Transaction) (state : Snapshot)
    (s : String) (t : Transaction) (_havg : 0 < avgPrice pos s)
    (hrow : latestRow pos s = some t) (_hpos : t.latest_position ≠ 0) :
    getItem (take_profit pos state).2 s =
      some (if sign t.latest_position * (state.price s - avgPrice pos s) /
                avgPrice pos s > 0.3 then -(sign t.latest_position)
            else if sign t.latest_position * (state.price s - avgPrice pos s) /
                avgPrice pos s > 0.1 then -0.5 * sign t.latest_position
            else 0) := by
  have hmem := latestRow_mem_symbolsOf pos s t hrow
  rw [take_profit_getItem, if_pos hmem]
  have hd : tpDecision pos state s =
      (if sign t.latest_position * (state.price s - avgPrice pos s) /
          avgPrice pos s > 0.3 then sign t.latest_position * (-1)
       else if sign t.latest_position * (state.price s - avgPrice pos s) /
          avgPrice pos s > 0.1 then sign t.latest_position * (-0.5)
       else 0) := by
    unfold tpDecision
    rw [hrow]
    rfl
  rw [hd]
  congr 1
  split_ifs <;> ring

/-- Intent-layer lemma: the mirrored thresholds of `slDecision` — decision
`−direction` when the signed return `r` is below −0.3, `−0.5 × direction`
when `r` is below −0.1 but not below −0.3, and 0 otherwise.  The source
itself raises before evaluating them (see `stop_loss_strict`). -/
theorem intended_stop_loss_thresholds (pos : List Transaction) (state : Snapshot)
    (s : String) (t : Transaction) (_havg : 0 < avgPrice pos s)
    (hrow : latestRow pos s = some t) (_hpos : t.latest_position ≠ 0) :
    getItem (stop_loss pos state).2 s =
      some (if sign t.latest_position * (state.price s - avgPrice pos s) /
                avgPrice pos s < -0.3 then -(sign t.latest_position)
            else if sign t.latest_position * (state.price s - avgPrice pos s) /
                avgPrice pos s < -0.1 then -0.5 * sign t.latest_position
            else 0) := by
  have hmem := latestRow_mem_symbolsOf pos s t hrow
  rw [stop_loss_getItem, if_pos hmem]
  have hd : slDecision pos state s =
      (if sign t.latest_position * (state.price s - avgPrice pos s) /
          avgPrice pos s < -0.3 then sign t.latest_position * (-1)
       else if sign t.latest_position * (state.price s - avgPrice pos s) /
          avgPrice pos s < -0.1 then sign t.latest_position * (-0.5)
       else 0) := by
    unfold slDecision
    rw [hrow]
    rfl
  rw [hd]
  congr 1
  split_ifs <;> ring

/-- Intent-layer lemma: even in the documented data flow the firing ranges
are disjoint — a non-zero take-profit decision needs `r > 0.1` and a
non-zero stop-loss decision needs `r < −0.1` on the same signed return — so
the two intended decisions are never both non-zero for one symbol. -/
theorem intended_not_both_nonzero :
    ∀ (pos : List Transaction) (state : Snapshot) (s : String),
    (firesNonzero (take_profit pos state).2 s &&
      firesNonzero (stop_loss pos state).2 s) = false := by
  intro pos state s
  by_cases h1 : firesNonzero (take_profit pos state).2 s = true
  · by_cases h2 : firesNonzero (stop_loss pos state).2 s = true
    · exact absurd ⟨firesNonzero_take_profit pos state s h1,
        firesNonzero_stop_loss pos state s h2⟩ (tp_sl_not_both pos state s)
    · rw [Bool.not_eq_true] at h2
      rw [h2, Bool.and_false]
  · rw [Bool.not_eq_true] at h1
    rw [h1, Bool.false_and]

/-- Claim C8 (amended): for no ledger, snapshot, and symbol are the
take-profit and stop-loss decisions both non-zero in the same tick — the
rule functions as executed produce decisions only for the empty ledger
(every other call raises `TypeError`), and those are all `NaN`, so neither
rule ever fires; the threshold ranges the claim cites are disjoint already
in the intended data flow (`tp_sl_not_both`, `intended_not_both_nonzero`). -/
theorem C8_decisions_never_both_nonzero :
    ∀ (pos : List Transaction) (state : Snapshot) (s : String),
    (firesNonzeroStrict (take_profit_strict pos state) s &&
      firesNonzeroStrict (stop_loss_strict pos state) s) = false := by
  intro pos state s
  rw [firesNonzeroStrict_take_profit, Bool.false_and]

/-- Counterexample to C8 as stated: its existential half is impossible — no
ledger, snapshot, and symbol make both decisions non-zero in the same tick
(no call of the source's rule functions ever yields a non-zero decision at
all). -/
theorem C8_counterexample :
    ¬ ∃ (pos : List Transaction) (state : Snapshot) (s : String),
        firesNonzeroStrict (take_profit_strict pos state) s = true ∧
        firesNonzeroStrict (stop_loss_strict pos state) s = true := by
  rintro ⟨pos, state, s, h1, _⟩
  rw [firesNonzeroStrict_take_profit] at h1
  exact Bool.noConfusion h1

/-- Claim C5 (amended): for the empty ledger the aggregator has no group keys,
`take_profit` and `stop_loss` return the untouched series — `NaN` (no numeric
decision), not the decision 0 — at every snapshot symbol, and `take_action`
leaves the ledger unchanged. -/
theorem C5_empty_ledger_behavior :
    ∀ (state : Snapshot) (s : String) (profit loss : String → ℚ),
    symbolsOf [] = [] ∧
    getItem (take_profit [] state).2 s = none ∧
    getItem (stop_loss [] state).2 s = none ∧
    take_action profit loss [] state = [] := by
  intro state s profit loss
  refine ⟨rfl, ?_, ?_, rfl⟩
  · rw [take_profit_getItem]
    simp [symbolsOf, sortStrings]
  · rw [stop_loss_getItem]
    simp [symbolsOf, sortStrings]

/-- Counterexample to C5 as stated: on the empty ledger `take_profit` stores no
numeric decision at a snapshot symbol — the entry stays `NaN` — rather than
the claimed decision 0. -/
theorem C5_counterexample :
    getItem (take_profit ([] : List Transaction) ⟨["A"], fun _ => 100⟩).2 "A"
      ≠ some 0 := by
  rw [take_profit_getItem]
  simp [symbolsOf, sortStrings]

/-- Claim C9 (amended): the rule functions never write the ledger — as
executed they read it and either raise or return it untouched — and no
routine appends to it: `take_action` as written leaves the ledger with the
same number of rows and every row but the last unchanged (the last row is
overwritten in place when a decision fires). -/
theorem C9_no_mutation_no_append :
    ∀ (pos position : List Transaction) (state : Snapshot)
      (profit loss : String → ℚ),
    (take_profit_strict pos state).1 = pos ∧
    (stop_loss_strict pos state).1 = pos ∧
    (take_action_strict profit loss position state).length = position.length ∧
    (take_action_strict profit loss position state).dropLast = position.dropLast := by
  intro pos position state profit loss
  exact ⟨rfl, rfl, (take_action_strict_frame profit loss position state).1,
    (take_action_strict_frame profit loss position state).2⟩

/-- Counterexample to C9 as stated: at a one-row ledger with a fired
take-profit decision, `take_action` does not extend the ledger by an
appended suffix — the result cannot be the old ledger followed by new rows,
because the single historical row itself has changed. -/
theorem C9_counterexample :
    ¬ ∃ appended, take_action_strict (fun _ => (-1 : ℚ)) (fun _ => 0)
        [⟨"A", 0, 100, 1, 10, 10⟩] ⟨["A"], fun _ => 131⟩ =
      [⟨"A", 0, 100, 1, 10, 10⟩] ++ appended := by
  rintro ⟨app, happ⟩
  have hred : take_action_strict (fun _ => (-1 : ℚ)) (fun _ => 0)
      [⟨"A", 0, 100, 1, 10, 10⟩] ⟨["A"], fun _ => 131⟩ =
      [closeRow ⟨"A", 0, 100, 1, 10, 10⟩ 131 (-1)] := rfl
  rw [hred, List.singleton_append] at happ
  have hhead := congrArg (fun l => l.head?) happ
  simp only [List.head?_cons] at hhead
  have hcr := Option.some.inj hhead
  have hprice := congrArg (fun u => u.transaction_price) hcr
  norm_num [closeRow] at hprice

/-- Intent-layer lemma: in the documented data flow, a ledger symbol whose
latest row `t` has a non-zero take-profit (resp. stop-loss) decision `d`
gets an appended row with `transaction_price` the snapshot price,
`transaction_direction` `−sign` of the previous `latest_position`, new
`latest_position` the previous one times `(1 + d)`, and `volume` the SIGNED
previous `latest_position` times `|d|` — even the intended update writes the
signed position, not the absolute value the spec asks for.  The source never
reaches these appends (see `take_action_strict`). -/
theorem intended_take_action_appends (pos : List Transaction) (state : Snapshot)
    (profit loss : String → ℚ) (s : String) (t : Transaction)
    (hrow : latestRow pos s = some t) :
    (profit s ≠ 0 → ∃ u ∈ (take_action profit loss pos state).drop pos.length,
        u.transaction_price = state.price s ∧
        u.transaction_direction = -sign t.latest_position ∧
        u.volume = t.latest_position * |profit s| ∧
        u.latest_position = t.latest_position * (1 + profit s)) ∧
    (loss s ≠ 0 → ∃ u ∈ (take_action profit loss pos state).drop pos.length,
        u.transaction_price = state.price s ∧
        u.transaction_direction = -sign t.latest_position ∧
        u.volume = t.latest_position * |loss s| ∧
        u.latest_position = t.latest_position * (1 + loss s)) := by
  have hmem := latestRow_mem_symbolsOf pos s t hrow
  have hdrop : (take_action profit loss pos state).drop pos.length =
      (symbolsOf pos).flatMap (fun s =>
        match latestRow pos s with
        | none => []
        | some t =>
            (if profit s ≠ 0 then [closeRow t (state.price s) (profit s)] else []) ++
            (if loss s ≠ 0 then [closeRow t (state.price s) (loss s)] else [])) := by
    unfold take_action
    exact List.drop_left _ _
  constructor
  · intro hpf
    refine ⟨closeRow t (state.price s) (profit s), ?_, rfl, ?_, rfl, rfl⟩
    · rw [hdrop]
      apply List.mem_flatMap.mpr
      refine ⟨s, hmem, ?_⟩
      rw [hrow]
      show closeRow t (state.price s) (profit s) ∈
        (if profit s ≠ 0 then [closeRow t (state.price s) (profit s)] else []) ++
        (if loss s ≠ 0 then [closeRow t (state.price s) (loss s)] else [])
      rw [if_pos hpf]
      exact List.mem_append_left _ (List.mem_singleton.mpr rfl)
    · show -1 * sign t.latest_position = -sign t.latest_position
      ring
  · intro hls
    refine ⟨closeRow t (state.price s) (loss s), ?_, rfl, ?_, rfl, rfl⟩
    · rw [hdrop]
      apply List.mem_flatMap.mpr
      refine ⟨s, hmem, ?_⟩
      rw [hrow]
      show closeRow t (state.price s) (loss s) ∈
        (if profit s ≠ 0 then [closeRow t (state.price s) (profit s)] else []) ++
        (if loss s ≠ 0 then [closeRow t (state.price s) (loss s)] else [])
      rw [if_pos hls]
      exact List.mem_append_right _ (List.mem_singleton.mpr rfl)
    · show -1 * sign t.latest_position = -sign t.latest_position
      ring

/-- Claim C4 (code bug): under the actual pandas semantics
(`DataFrame.append` returns a new frame which the source discards), a ledger
with one long row of position 10, snapshot price 131 and take-profit decision
−1 ends the call with the SAME number of rows, its only historical row
overwritten by the closing update — no row is appended. -/
theorem C4_strict_no_append :
    (take_action_strict (fun _ => (-1 : ℚ)) (fun _ => 0)
        [⟨"A", 0, 100, 1, 10, 10⟩] ⟨["A"], fun _ => 131⟩).length = 1 ∧
    take_action_strict (fun _ => (-1 : ℚ)) (fun _ => 0)
        [⟨"A", 0, 100, 1, 10, 10⟩] ⟨["A"], fun _ => 131⟩ =
      [⟨"A", 0, 131, -1, 10, 0⟩] ∧
    (⟨"A", 0, 100, 1, 10, 10⟩ : Transaction) ∉
      take_action_strict (fun _ => (-1 : ℚ)) (fun _ => 0)
        [⟨"A", 0, 100, 1, 10, 10⟩] ⟨["A"], fun _ => 131⟩ := by
  have hred : take_action_strict (fun _ => (-1 : ℚ)) (fun _ => 0)
      [⟨"A", 0, 100, 1, 10, 10⟩] ⟨["A"], fun _ => 131⟩ =
      [closeRow ⟨"A", 0, 100, 1, 10, 10⟩ 131 (-1)] := rfl
  have hclose : closeRow ⟨"A", 0, 100, 1, 10, 10⟩ 131 (-1) =
      (⟨"A", 0, 131, -1, 10, 0⟩ : Transaction) := by
    simp only [closeRow, sign]
    norm_num
  refine ⟨by rw [hred]; rfl, by rw [hred, hclose], ?_⟩
  rw [hred, hclose]
  simp only [List.mem_singleton]
  intro hcontra
  have := congrArg (fun u => u.transaction_price) hcontra
  norm_num at this

/-- Intent-layer lemma: under the data-model invariant (chronological order
and running signed sums), the per-symbol latest row selected by
max-over-time with last-inserted tie-break is the symbol's last ledger row,
and its `latest_position` equals the cumulative sum of `direction × volume`
over the symbol's rows in ledger order.  This is the selection the spec
documents; the source's own aggregation raises before performing it (see
`applyMaxColumnTime`). -/
theorem intended_aggregator_latest_position (pos : List Transaction) (s : String)
    (t : Transaction) (hwf : ledgerWF pos) (hrow : latestRow pos s = some t) :
    latestRow pos s = (pos.filter (fun r => r.symbol = s)).getLast? ∧
    t.latest_position = signedSum pos s := by
  have hpair : List.Pairwise (fun a b : Transaction => a.time ≤ b.time) pos := by
    haveI : IsTrans Transaction (fun a b : Transaction => a.time ≤ b.time) :=
      ⟨fun a b c hab hbc => le_trans hab hbc⟩
    exact List.chain'_iff_pairwise.mp hwf.1
  have heq : latestRow pos s = (pos.filter (fun r => r.symbol = s)).getLast? := by
    unfold latestRow
    exact foldl_maxTimeStep_sorted _ (hpair.filter _)
  refine ⟨heq, ?_⟩
  have ht : (pos.filter (fun r => r.symbol = s)).getLast? = some t := by
    rw [← heq]; exact hrow
  have hrun := runningOK_getLast pos (fun _ => 0) hwf.2 s t ht
  simpa using hrun


/-- Claim C2 (code bug): at the spec's take-profit example (one row bought at
100, snapshot price 131, where the claim prescribes the full-close decision
−1, cf. `intended_take_profit_thresholds`), the real `take_profit` raises
`TypeError` at `group_by.apply(max, column='time')` and assigns no decision;
the only call that returns — the empty ledger — yields the untouched
all-`NaN` series, again no threshold decision. -/
theorem C2_take_profit_raises :
    (take_profit_strict [⟨"A", 0, 100, 1, 10, 10⟩] ⟨["A"], fun _ => 131⟩).2 =
      Except.error PandasError.typeError ∧
    (take_profit_strict [] ⟨["A"], fun _ => 131⟩).2 =
      Except.ok (initSeries ⟨["A"], fun _ => 131⟩) := by
  constructor
  · rfl
  · rfl

/-- Claim C3 (code bug): at the spec's stop-loss example (snapshot price 85,
where the claim prescribes the half-close decision −0.5, cf.
`intended_stop_loss_thresholds`), the real `stop_loss` raises `TypeError` at
its `group_by.apply(max, column='time')` and assigns no decision; the only
returning call — the empty ledger — yields the untouched all-`NaN` series. -/
theorem C3_stop_loss_raises :
    (stop_loss_strict [⟨"A", 0, 100, 1, 10, 10⟩] ⟨["A"], fun _ => 85⟩).2 =
      Except.error PandasError.typeError ∧
    (stop_loss_strict [] ⟨["A"], fun _ => 85⟩).2 =
      Except.ok (initSeries ⟨["A"], fun _ => 85⟩) := by
  constructor
  · rfl
  · rfl

/-- Claim C6 (code bug): the aggregation's mean half is real — the two-row
ledger's average transaction price is 105 — but the latest-row half never
runs: the selection call raises `TypeError` on every non-empty ledger (and
even with the stray keyword removed, builtin `max` over a frame returns a
column label, not the max-time row).  The intended selection and its
cumulative-sum property are established separately by
`intended_aggregator_latest_position`. -/
theorem C6_aggregation_raises :
    avgPrice [⟨"A", 0, 100, 1, 10, 10⟩, ⟨"A", 1, 110, 1, 10, 20⟩] "A" = 105 ∧
    applyMaxColumnTime [⟨"A", 0, 100, 1, 10, 10⟩, ⟨"A", 1, 110, 1, 10, 20⟩] =
      Except.error PandasError.typeError := by
  constructor
  · norm_num [avgPrice]
  · rfl

/-- Claim C1 (code bug): the claimed append never happens.  At a short
position (row `(A, 0, 100, −1, 10, −10)`, snapshot price 60, take-profit
decision 1) the source raises `TypeError` at the aggregation; granting that
line its intent, `DataFrame.append`'s result is discarded, so the
`iloc[-1, k]` writes overwrite the single historical row in place — the
ledger ends `[(A, 0, 60, 1, −10, −20)]`, still one row — and even the volume
written is the signed previous position times `|d|` (here −10), not the
claimed `|−10| × |1| = 10`. -/
theorem C1_no_append_signed_volume :
    take_action_strict (fun _ => (1 : ℚ)) (fun _ => 0)
        [⟨"A", 0, 100, -1, 10, -10⟩] ⟨["A"], fun _ => 60⟩ =
      [⟨"A", 0, 60, 1, -10, -20⟩] ∧
    ((-10 : ℚ) ≠ |(-10 : ℚ)| * |(1 : ℚ)|) := by
  have hred : take_action_strict (fun _ => (1 : ℚ)) (fun _ => 0)
      [⟨"A", 0, 100, -1, 10, -10⟩] ⟨["A"], fun _ => 60⟩ =
      [closeRow ⟨"A", 0, 100, -1, 10, -10⟩ 60 1] := rfl
  have hclose : closeRow ⟨"A", 0, 100, -1, 10, -10⟩ 60 1 =
      (⟨"A", 0, 60, 1, -10, -20⟩ : Transaction) := by
    simp only [closeRow, sign]
    norm_num
  exact ⟨by rw [hred, hclose], by norm_num⟩
